import Mathlib

/-!
Verification of the AIEstimAgent measurement core against its specification.

Coordinates are modelled as exact rationals (`ℚ`); square roots coming from
`Math.hypot` / `Math.sqrt` land in `ℝ` via `Real.sqrt`.  Each definition in the
`Src` namespace is a direct shallow embedding of the corresponding TypeScript
function; definitions in the `Spec` namespace transcribe the specification's
wording for refinement comparisons.
-/

namespace Src

/-- Point in pixel space, as in `client/src/store/useStore` (`type Point = [number, number]`). -/
abbrev Point : Type := ℚ × ℚ

/-- Embedding of `Math.hypot dx dy = sqrt (dx*dx + dy*dy)` for rational inputs. -/
noncomputable def hypotQ (dx dy : ℚ) : ℝ :=
  Real.sqrt ((dx * dx + dy * dy : ℚ) : ℝ)

/-- Embedding of `calculatePolygonArea` from `client/src/utils/geometry.ts` lines 40–51:
`if (points.length < 3) return 0`, then a loop `for i` with `j = (i+1) % n`
accumulating `points[i][0]*points[j][1] - points[j][0]*points[i][1]`, returning
`Math.abs(area) / 2`. -/
def calculatePolygonArea (points : List Point) : ℚ :=
  if points.length < 3 then 0
  else
    |(List.range points.length).foldl (fun area i =>
        area + (points.getD i (0, 0)).1 * (points.getD ((i + 1) % points.length) (0, 0)).2
             - (points.getD ((i + 1) % points.length) (0, 0)).1 * (points.getD i (0, 0)).2) 0| / 2

/-- Embedding of `polygonArea` from `src/unnamed/part_001` lines 162–171 (the second copy of
the geometry kernel): same loop with destructured points, returning `Math.abs(s) * 0.5`.
The `!points` guard of the JS version is vacuous for a total list argument. -/
def polygonArea (points : List Point) : ℚ :=
  if points.length < 3 then 0
  else
    |(List.range points.length).foldl (fun s i =>
        s + (points.getD i (0, 0)).1 * (points.getD ((i + 1) % points.length) (0, 0)).2
          - (points.getD ((i + 1) % points.length) (0, 0)).1 * (points.getD i (0, 0)).2) 0| * (1 / 2)

/-- Embedding of `calculatePolygonPerimeter` from `client/src/utils/geometry.ts` lines 53–65:
`if (points.length < 2) return 0`, then for each `i` with `j = (i+1) % n` it adds
`Math.hypot(points[j][0]-points[i][0], points[j][1]-points[i][1])`.  Note that the closing
edge `last → first` is always included; the function takes no `closed` flag. -/
noncomputable def calculatePolygonPerimeter (points : List Point) : ℝ :=
  if points.length < 2 then 0
  else
    (List.range points.length).foldl (fun per i =>
        per + hypotQ ((points.getD ((i + 1) % points.length) (0, 0)).1 - (points.getD i (0, 0)).1)
                     ((points.getD ((i + 1) % points.length) (0, 0)).2 - (points.getD i (0, 0)).2)) 0

/-- Embedding of `polygonPerimeter` from `src/unnamed/part_001` lines 173–182: identical loop
to `calculatePolygonPerimeter` (destructured variables, same `% n` wrap-around). -/
noncomputable def polygonPerimeter (points : List Point) : ℝ :=
  if points.length < 2 then 0
  else
    (List.range points.length).foldl (fun per i =>
        per + hypotQ ((points.getD ((i + 1) % points.length) (0, 0)).1 - (points.getD i (0, 0)).1)
                     ((points.getD ((i + 1) % points.length) (0, 0)).2 - (points.getD i (0, 0)).2)) 0

/-- Embedding of `pointToSegmentDistance` from `client/src/utils/geometry.ts` lines 21–38. -/
noncomputable def pointToSegmentDistance (p a b : Point) : ℝ :=
  let dx := b.1 - a.1
  let dy := b.2 - a.2
  if dx = 0 ∧ dy = 0 then hypotQ (p.1 - a.1) (p.2 - a.2)
  else
    let t := max 0 (min 1 (((p.1 - a.1) * dx + (p.2 - a.2) * dy) / (dx * dx + dy * dy)))
    hypotQ (p.1 - (a.1 + t * dx)) (p.2 - (a.2 + t * dy))

/-- Character classes occurring in the two `parseDistance` regexes of
`client/src/components/calibration-tool.tsx`. -/
inductive RChar where
  | digit
  | space
  | oneOf (cs : List Char)
deriving DecidableEq

/-- Class membership: `\d` is `[0-9]`, `\s` is whitespace, and explicit characters. -/
def rcMatch : RChar → Char → Bool
  | .digit, c => c.isDigit
  | .space, c => c.isWhitespace
  | .oneOf cs, c => cs.contains c

/-- Regex abstract syntax sufficient for the two `parseDistance` patterns:
character classes, concatenation, greedy `?`, greedy `*`, and numbered capture groups. -/
inductive Re where
  | eps
  | cls (c : RChar)
  | cat (a b : Re)
  | opt (a : Re)
  | star (a : Re)
  | group (n : ℕ) (a : Re)

/-- Backtracking regex matcher in continuation-passing style, mirroring JavaScript
`RegExp` semantics: greedy `?`/`*` try the longer alternative first and backtrack on
failure of the continuation; capture groups record the consumed slice, latest write
first.  Recursion is fuel-indexed (structural on `fuel`); the top-level entry point
supplies fuel that is ample for the fixed patterns, so the `fuel = 0` failure branch
is never reached on the inputs considered. -/
def reM : ℕ → Re → List Char → List (ℕ × List Char) →
    (List Char → List (ℕ × List Char) → Option (List (ℕ × List Char))) →
    Option (List (ℕ × List Char))
  | 0, _, _, _, _ => none
  | fuel + 1, re, s, caps, k =>
    match re with
    | .eps => k s caps
    | .cls c =>
      match s with
      | [] => none
      | x :: rest => if rcMatch c x then k rest caps else none
    | .cat a b => reM fuel a s caps (fun s1 caps1 => reM fuel b s1 caps1 k)
    | .opt a => (reM fuel a s caps k).orElse (fun _ => k s caps)
    | .star a =>
      (reM fuel a s caps (fun s1 caps1 =>
        if s1.length = s.length then none else reM fuel (.star a) s1 caps1 k)).orElse
        (fun _ => k s caps)
    | .group n a =>
      reM fuel a s caps (fun s1 caps1 => k s1 ((n, s.take (s.length - s1.length)) :: caps1))

/-- Anchored full match (`^...$`), as both `parseDistance` regexes are anchored. -/
def reFullMatch (re : Re) (s : String) : Option (List (ℕ × List Char)) :=
  reM ((s.toList.length + 2) * 32) re s.toList []
    (fun rest caps => if rest = [] then some caps else none)

/-- The numeral sub-pattern `\d+(?:\.\d+)?` shared by both regexes. -/
def numRe : Re :=
  .cat (.cat (.cls .digit) (.star (.cls .digit)))
    (.opt (.cat (.cls (.oneOf ['.'])) (.cat (.cls .digit) (.star (.cls .digit)))))

/-- Embedding of the first `parseDistance` regex
`/^(\d+(?:\.\d+)?)'?\s*(\d+(?:\.\d+)?)"?$/` (foot mark and inch mark both written via
`Char.ofNat`: 39 is the apostrophe, 34 the double quote).  Both marks are optional in
the source pattern. -/
def feetInchesQuoteRe : Re :=
  .cat (.group 1 numRe)
    (.cat (.opt (.cls (.oneOf [Char.ofNat 39])))
      (.cat (.star (.cls .space))
        (.cat (.group 2 numRe) (.opt (.cls (.oneOf [Char.ofNat 34]))))))

/-- Embedding of the second `parseDistance` regex `/^(\d+(?:\.\d+)?)[- ](\d+(?:\.\d+)?)$/`. -/
def feetInchesDashRe : Re :=
  .cat (.group 1 numRe) (.cat (.cls (.oneOf ['-', ' '])) (.group 2 numRe))

/-- Value of a digit string, most significant first. -/
def digitsVal (l : List Char) : ℕ :=
  l.foldl (fun n c => 10 * n + (c.toNat - 48)) 0

/-- Integer-part digits of a captured numeral (everything before the dot). -/
def intDigits (l : List Char) : List Char :=
  l.takeWhile (fun c => c != '.')

/-- Fraction-part digits of a captured numeral (everything after the dot). -/
def fracDigits (l : List Char) : List Char :=
  match l.dropWhile (fun c => c != '.') with
  | [] => []
  | _ :: rest => rest

/-- Rational value of a captured numeral of shape `\d+(\.\d+)?` — what JavaScript's
`parseFloat` returns on such a capture. -/
def numCapToRat (l : List Char) : ℚ :=
  (digitsVal (intDigits l) : ℚ) + (digitsVal (fracDigits l) : ℚ) / (10 : ℚ) ^ (fracDigits l).length

/-- Sign of a `parseFloat` input (`-1` for a leading minus, else `1`). -/
def floatSignVal (l : List Char) : ℤ :=
  match l with
  | [] => 1
  | c :: _ => if c = '-' then -1 else 1

/-- Characters of a `parseFloat` input after the optional leading sign. -/
def floatSignRest (l : List Char) : List Char :=
  match l with
  | [] => []
  | c :: rest => if c = '-' ∨ c = '+' then rest else c :: rest

/-- Fraction digits of a `parseFloat` input after the integer digits. -/
def fracPart (r1 : List Char) : List Char :=
  match r1 with
  | c :: rest => if c = '.' then rest.takeWhile Char.isDigit else []
  | [] => []

/-- Remainder of a `parseFloat` input after integer and fraction digits. -/
def expRest (r1 : List Char) : List Char :=
  match r1 with
  | c :: rest => if c = '.' then rest.dropWhile Char.isDigit else c :: rest
  | [] => []

/-- Exponent factor of a `parseFloat` input (the optional `e`/`E` suffix; a malformed
exponent is ignored, as `parseFloat` does). -/
def floatExp (l : List Char) : ℤ :=
  match l with
  | [] => 0
  | c :: rest =>
    if c = 'e' ∨ c = 'E' then
      match rest with
      | [] => 0
      | d :: ds =>
        if d = '-' then
          match ds.takeWhile Char.isDigit with
          | [] => 0
          | digs => -(digitsVal digs : ℤ)
        else if d = '+' then
          match ds.takeWhile Char.isDigit with
          | [] => 0
          | digs => (digitsVal digs : ℤ)
        else
          match (d :: ds).takeWhile Char.isDigit with
          | [] => 0
          | digs => (digitsVal digs : ℤ)
    else 0

/-- Model of JavaScript's `parseFloat`: skip leading whitespace, optional sign, longest
numeric prefix (digits, optional fraction, optional exponent), ignoring any trailing
garbage; `none` models `NaN`.  The special strings accepted as `Infinity` by JavaScript
are outside this rational-valued model and are not relied on by any claim. -/
def parseFloatQ (s : String) : Option ℚ :=
  let cs := s.toList.dropWhile Char.isWhitespace
  let rest := floatSignRest cs
  let ip := rest.takeWhile Char.isDigit
  let r1 := rest.dropWhile Char.isDigit
  let fp := fracPart r1
  let r2 := expRest r1
  if ip = [] ∧ fp = [] then none
  else
    some ((floatSignVal cs : ℚ) * ((digitsVal ip : ℚ) + (digitsVal fp : ℚ) / (10 : ℚ) ^ fp.length)
      * (10 : ℚ) ^ floatExp r2)

/-- Embedding of `parseDistance` from `client/src/components/calibration-tool.tsx`
lines 40–66: try the foot-mark/quote regex, then the dash/space regex (each returning
`feet + inches / 12` from the two captures), then `parseFloat`, and `null` otherwise. -/
def parseDistance (input : String) : Option ℚ :=
  match reFullMatch feetInchesQuoteRe input with
  | some caps =>
    some (numCapToRat ((caps.lookup 1).getD []) + numCapToRat ((caps.lookup 2).getD []) / 12)
  | none =>
    match reFullMatch feetInchesDashRe input with
    | some caps =>
      some (numCapToRat ((caps.lookup 1).getD []) + numCapToRat ((caps.lookup 2).getD []) / 12)
    | none => parseFloatQ input

/-- Unit selector of the calibration tool (`"ft" | "in"`; `inch` stands for `"in"`). -/
inductive CalUnit where
  | ft
  | inch
deriving DecidableEq

/-- Embedding of `calculateDistance` from `calibration-tool.tsx` lines 33–38:
`0` unless exactly two points are present, else the Euclidean pixel distance. -/
noncomputable def calculateDistance (points : List Point) : ℝ :=
  match points with
  | [p0, p1] => hypotQ (p1.1 - p0.1) (p1.2 - p0.2)
  | _ => 0

/-- Embedding of `handleComplete` from `calibration-tool.tsx` lines 68–84: parse the
entered distance, reject it when parsing failed, the value is falsy (`0`) or
non-positive, or the pixel distance is non-positive; otherwise convert inches to feet
and emit `pixelDistance / distanceInFeet`. -/
noncomputable def handleComplete (points : List Point) (knownDistance : String)
    (unit : CalUnit) : Option ℝ :=
  let pixelDistance := calculateDistance points
  match parseDistance knownDistance with
  | none => none
  | some v =>
    if v = 0 ∨ v ≤ 0 ∨ pixelDistance ≤ 0 then none
    else
      let distanceInFeet : ℚ := match unit with
        | .inch => v / 12
        | .ft => v
      some (pixelDistance / (distanceInFeet : ℝ))

/-- Argument type of `toPairs` in `client/src/utils/geometry.ts` lines 4–15: the
TypeScript union `Point[] | number[]` (a flat numeric array or an array already in
pair form; the code discriminates with `Array.isArray(points[0])`). -/
inductive JsArr where
  | nums (l : List ℚ)
  | pts (l : List Point)

/-- Embedding of `toPairs`: a pair-form array is returned as-is; a flat array is read
two indices at a time (`i = 0, 2, 4, …` while `i < length`), with out-of-bounds reads
producing JavaScript `undefined`, modelled as `none`.  The loop runs `⌈length/2⌉`
times, so for an odd-length array the final iteration reads index `length`. -/
def toPairs : JsArr → List (Option ℚ × Option ℚ)
  | .pts l => l.map (fun p => (some p.1, some p.2))
  | .nums l => (List.range' 0 ((l.length + 1) / 2) 2).map (fun i => (l[i]?, l[i + 1]?))

/-- Detection record as consumed by `organized-takeoff-panel.tsx`: its `id`, optional
`name`, class label, and the `display` metrics used by the location view
(`display?.area_sqft`, `display?.perimeter_ft`; `none` models an absent field). -/
structure TDetection where
  id : String
  name : Option String
  cls : String
  area_sqft : Option ℚ
  perimeter_ft : Option ℚ
deriving DecidableEq

/-- One entry of a room group (`type`, `detections`, `totalQty`, `unit`). -/
structure TItem where
  type : String
  detections : List TDetection
  totalQty : ℚ
  unit : String
deriving DecidableEq

/-- A room group of the location view (`RoomGroup` in the source). -/
structure TRoomGroup where
  id : String
  name : String
  items : List TItem
deriving DecidableEq

/-- Character-list test: does the first list occur at the head of the second? -/
def startsWithChars : List Char → List Char → Bool
  | [], _ => true
  | _ :: _, [] => false
  | a :: as, b :: bs => a = b && startsWithChars as bs

/-- Character-list test: does the first list occur anywhere in the second?
Models JavaScript's `String.prototype.includes`. -/
def hasSubChars (n : List Char) : List Char → Bool
  | [] => startsWithChars n []
  | c :: rest => startsWithChars n (c :: rest) || hasSubChars n rest

/-- Class-label test `o.class.toLowerCase().includes(sub)` from the location view. -/
def clsHas (sub : String) (d : TDetection) : Bool :=
  hasSubChars sub.toList d.cls.toLower.toList

/-- Embedding of `liveData.walls.filter(() => Math.random() > 0.5)` from
`organized-takeoff-panel.tsx` (the `Walls` entry of a room group): `rng` is the stream
of `Math.random()` results and `k` the number of draws consumed so far; one draw is
consumed per wall.  Returns the kept walls and the updated draw counter. -/
def filterDrawAll (rng : ℕ → ℚ) : ℕ → List TDetection → List TDetection × ℕ
  | k, [] => ([], k)
  | k, d :: rest =>
    let r := filterDrawAll rng (k + 1) rest
    (if rng k > 1 / 2 then d :: r.1 else r.1, r.2)

/-- Embedding of `liveData.openings.filter(o => o.class.toLowerCase().includes(sub)
&& Math.random() > q)`: the JavaScript `&&` short-circuits, so a draw is consumed only
for openings whose class matches. -/
def filterClsDraw (rng : ℕ → ℚ) (sub : String) (q : ℚ) : ℕ → List TDetection → List TDetection × ℕ
  | k, [] => ([], k)
  | k, d :: rest =>
    if clsHas sub d then
      let r := filterClsDraw rng sub q (k + 1) rest
      (if rng k > q then d :: r.1 else r.1, r.2)
    else
      filterClsDraw rng sub q k rest

/-- JavaScript `a || b` on an optional string: `b` when `a` is absent or empty. -/
def pickName (primary : Option String) (alt : String) : String :=
  match primary with
  | some s => if s = "" then alt else s
  | none => alt

/-- Items of one room group, from `organized-takeoff-panel.tsx` lines 85–113: the
`Flooring`/`Walls`/`Doors`/`Windows` entries (walls and openings selected by random
draws), then the `EA` quantity fix-up `.map`, then the `.filter` dropping empty items. -/
def roomItems (rng : ℕ → ℚ) (walls openings : List TDetection) (room : TDetection)
    (k : ℕ) : List TItem × ℕ :=
  let w := filterDrawAll rng k walls
  let dr := filterClsDraw rng "door" (7 / 10) w.2 openings
  let wn := filterClsDraw rng "window" (7 / 10) dr.2 openings
  let items0 : List TItem := [
    ⟨"Flooring", [room], room.area_sqft.getD 0, "SF"⟩,
    ⟨"Walls", w.1, room.perimeter_ft.getD 0, "LF"⟩,
    ⟨"Doors", dr.1, 0, "EA"⟩,
    ⟨"Windows", wn.1, 0, "EA"⟩]
  let items1 := items0.map (fun it =>
    if it.unit = "EA" then { it with totalQty := (it.detections.length : ℚ) } else it)
  (items1.filter (fun it => decide (0 < it.detections.length) || decide (0 < it.totalQty)), wn.2)

/-- Recursion over the rooms of the location view, threading the room index (for the
default `Room ${index+1}` name) and the random-draw counter. -/
def locationViewGo (rng : ℕ → ℚ) (roomNames : String → Option String)
    (walls openings : List TDetection) : ℕ → ℕ → List TDetection → List TRoomGroup
  | _, _, [] => []
  | idx, k, room :: rest =>
    let nm := pickName (roomNames room.id) (pickName room.name ("Room " ++ toString (idx + 1)))
    let ri := roomItems rng walls openings room k
    ⟨room.id, nm, ri.1⟩ :: locationViewGo rng roomNames walls openings (idx + 1) ri.2 rest

/-- Embedding of the `locationView` grouping of `organized-takeoff-panel.tsx` lines
80–124, as a function of the analysis data (`rooms`, `walls`, `openings`), the user's
room renames (`roomNames`), and the `Math.random()` stream `rng`. -/
def locationView (rng : ℕ → ℚ) (roomNames : String → Option String)
    (rooms walls openings : List TDetection) : List TRoomGroup :=
  locationViewGo rng roomNames walls openings 0 0 rooms

end Src

namespace Spec

/-- Consecutive pairs of a vertex list treated as a closed loop: each vertex paired with
its cyclic successor (the last point wraps to the first), as the spec words it. -/
def cyclicPairs (l : List Src.Point) : List (Src.Point × Src.Point) :=
  l.zip (l.rotate 1)

/-- Shoelace cross term `x_i·y_{i+1} − x_{i+1}·y_i` of one cyclic pair. -/
def cross (p q : Src.Point) : ℚ := p.1 * q.2 - q.1 * p.2

/-- Signed shoelace sum over the closed loop. -/
def crossSum (l : List Src.Point) : ℚ :=
  ((cyclicPairs l).map (fun pq => cross pq.1 pq.2)).sum

/-- Shoelace area as the specification words it: `abs (Σ (x_i·y_{i+1} − x_{i+1}·y_i)) / 2`
over the sequence treated as a closed loop. -/
def shoelaceArea (l : List Src.Point) : ℚ := |crossSum l| / 2

/-- Euclidean distance between two points (specification's `euclidean`). -/
noncomputable def dist (p q : Src.Point) : ℝ := Src.hypotQ (q.1 - p.1) (q.2 - p.2)

/-- Sum of consecutive (non-cyclic) Euclidean edge lengths of a vertex list. -/
noncomputable def openLength (l : List Src.Point) : ℝ :=
  ((l.zip l.tail).map (fun pq => dist pq.1 pq.2)).sum

/-- Length of the closing `last → first` edge (`0` for the empty list). -/
noncomputable def closeLength (l : List Src.Point) : ℝ :=
  match l with
  | [] => 0
  | x :: xs => dist ((x :: xs).getLastD (0, 0)) x

/-- Perimeter as the specification words it: sum of consecutive Euclidean distances,
including the `last → first` edge exactly when `closed` is true. -/
noncomputable def perimeter (l : List Src.Point) (closed : Bool) : ℝ :=
  openLength l + if closed then closeLength l else 0

/-- Cyclic edge-length sum (every consecutive pair of the closed loop). -/
noncomputable def cyclicLength (l : List Src.Point) : ℝ :=
  ((cyclicPairs l).map (fun pq => dist pq.1 pq.2)).sum

/-- Open-chain shoelace contribution (consecutive pairs, no wrap). -/
def openCross (l : List Src.Point) : ℚ :=
  ((l.zip l.tail).map (fun pq => cross pq.1 pq.2)).sum

/-- Closing shoelace contribution of the `last → first` edge. -/
def closeCross (l : List Src.Point) : ℚ :=
  if l = [] then 0 else cross (l.getLastD (0, 0)) (l.headD (0, 0))

/-- Point-to-segment distance as the specification words it: the projection parameter
`t = clamp(((p−a)·(b−a)) / |b−a|², 0, 1)` followed by the distance `|p − (a + t(b−a))|`. -/
noncomputable def segDistSpec (p a b : Src.Point) : ℝ :=
  let t := max 0 (min 1 (((p.1 - a.1) * (b.1 - a.1) + (p.2 - a.2) * (b.2 - a.2))
      / ((b.1 - a.1) * (b.1 - a.1) + (b.2 - a.2) * (b.2 - a.2))))
  Src.hypotQ (p.1 - (a.1 + t * (b.1 - a.1))) (p.2 - (a.2 + t * (b.2 - a.2)))

end Spec

namespace Model

/-- Modelled from the spec: the repository contains no reconciliation code, so the
`Detection` record of §3 is modelled from the spec's words — a class label, a
confidence, and a region given as an ordered pixel-coordinate sequence.  (The id,
category and source fields of §3 play no role in the reconciliation algorithm of §4.4
and are omitted; raw detections are identified by their list position instead.) -/
structure Det where
  cls : String
  conf : ℚ
  region : List Src.Point
deriving DecidableEq

/-- Modelled from the spec: provenance of a reconciled detection (§4.4 steps 3–5:
both sources, secondary only, or primary only). -/
inductive Provenance where
  | primaryOnly
  | secondaryOnly
  | both
deriving DecidableEq

/-- Modelled from the spec: one `ReconciledDetection` — the chosen detection, its
provenance, and the positions of the raw primary/secondary detections that contribute
to it (`none` when no detection of that source contributes). -/
structure RecDet where
  det : Det
  provenance : Provenance
  fromPrimary : Option ℕ
  fromSecondary : Option ℕ
deriving DecidableEq

/-- Placeholder detection for out-of-range `getD` reads (never hit on in-range indices). -/
def dDefault : Det := ⟨"", 0, []⟩

/-- Modelled from the spec: §4.4 step 2–3 — the best (maximum-IoU) *unclaimed* primary
detection of the *same class* for a secondary detection `d`; zero-area primaries are
never matched.  `iou` is the spec's region-overlap subroutine, kept as a parameter
because the spec defines it only as area(intersection)/area(union) over polygon masks.
Ties between equal IoU values keep the earliest primary index (fixed iteration order,
as the spec's determinism requirement demands). -/
def bestMatch (iou : List Src.Point → List Src.Point → ℚ) (primary : List Det)
    (claimed : List ℕ) (d : Det) : Option (ℕ × ℚ) :=
  ((List.range primary.length).filter (fun i =>
      decide (i ∉ claimed) && decide ((primary.getD i dDefault).cls = d.cls)
        && decide (¬ Src.calculatePolygonArea (primary.getD i dDefault).region = 0))).foldl
    (fun acc i =>
      let v := iou (primary.getD i dDefault).region d.region
      match acc with
      | none => some (i, v)
      | some jw => if v > jw.2 then some (i, v) else acc) none

/-- Modelled from the spec: §4.4 steps 1–4 — iterate `secondary` in original order
(`s` is the position of the next secondary detection), skipping zero-area regions
entirely, merging with the best unclaimed same-class primary when its IoU meets the
threshold (the winner is whichever has higher confidence, ties favouring primary, and
the matched primary index becomes claimed), and otherwise emitting the secondary
detection as a new unique result. -/
def reconcileLoop (iou : List Src.Point → List Src.Point → ℚ) (thr : ℚ)
    (primary : List Det) : ℕ → List Det → List ℕ → List RecDet → List ℕ × List RecDet
  | _, [], claimed, out => (claimed, out)
  | s, d :: rest, claimed, out =>
    if Src.calculatePolygonArea d.region = 0 then
      reconcileLoop iou thr primary (s + 1) rest claimed out
    else
      match bestMatch iou primary claimed d with
      | some iv =>
        if iv.2 ≥ thr then
          reconcileLoop iou thr primary (s + 1) rest (iv.1 :: claimed)
            (out ++ [⟨if d.conf > (primary.getD iv.1 dDefault).conf then d
                      else primary.getD iv.1 dDefault, .both, some iv.1, some s⟩])
        else
          reconcileLoop iou thr primary (s + 1) rest claimed
            (out ++ [⟨d, .secondaryOnly, none, some s⟩])
      | none =>
        reconcileLoop iou thr primary (s + 1) rest claimed
          (out ++ [⟨d, .secondaryOnly, none, some s⟩])

/-- Modelled from the spec: §4.4 step 5 — after all of `secondary` is processed, every
still-unclaimed primary detection is emitted with primary-only provenance; zero-area
primaries are skipped (not emitted). -/
def unclaimedPrimaries (primary : List Det) (claimed : List ℕ) : List RecDet :=
  ((List.range primary.length).filter (fun i =>
      decide (i ∉ claimed) && decide (¬ Src.calculatePolygonArea (primary.getD i dDefault).region = 0))).map
    (fun i => ⟨primary.getD i dDefault, .primaryOnly, some i, none⟩)

/-- Modelled from the spec: `reconcile(primary, secondary, iouThreshold)` of §4.4 —
the secondary pass followed by the unclaimed-primary pass. -/
def reconcile (iou : List Src.Point → List Src.Point → ℚ) (thr : ℚ)
    (primary secondary : List Det) : List RecDet :=
  (reconcileLoop iou thr primary 0 secondary [] []).2
    ++ unclaimedPrimaries primary (reconcileLoop iou thr primary 0 secondary [] []).1

end Model

namespace Bridge

/-- The unit square, the specification's standard example. -/
def unitSquare : List Src.Point := [(0, 0), (1, 0), (1, 1), (0, 1)]

/-- Recursive description of the flat-array branch of `toPairs`: two elements per step,
a trailing `(some x, none)` when one element is left. -/
def chunk : List ℚ → List (Option ℚ × Option ℚ)
  | [] => []
  | [x] => [(some x, none)]
  | x :: y :: rest => (some x, some y) :: chunk rest

/-- A room detection fixture: 100 sqft area, 10 ft perimeter. -/
def roomFixture : Src.TDetection := ⟨"r1", none, "room", some 100, some 10⟩

/-- A wall detection fixture. -/
def wallFixture : Src.TDetection := ⟨"w1", none, "wall", none, some 8⟩

/-- State invariant of the reconciliation loop: every emitted primary contribution is
claimed, each primary index is contributed at most once, emitted secondary positions
are below the cursor `s`, and each secondary position is contributed at most once. -/
def OutInv (claimed : List ℕ) (s : ℕ) (out : List Model.RecDet) : Prop :=
  (∀ e ∈ out, ∀ j : ℕ, e.fromPrimary = some j → j ∈ claimed)
  ∧ (∀ i : ℕ, out.countP (fun e => decide (e.fromPrimary = some i)) ≤ 1)
  ∧ (∀ e ∈ out, ∀ t : ℕ, e.fromSecondary = some t → t < s)
  ∧ (∀ t : ℕ, out.countP (fun e => decide (e.fromSecondary = some t)) ≤ 1)

/-- A window detection over the unit square with confidence `0.9`. -/
def win9 : Model.Det := ⟨"window", 9 / 10, unitSquare⟩

/-- A window detection over the unit square with confidence `0.7`. -/
def win7 : Model.Det := ⟨"window", 7 / 10, unitSquare⟩

end Bridge

namespace Bridge

/-- Folding `fun s i => s + f i` over a list is adding the mapped sum. -/
lemma foldl_add_eq {M : Type} [AddCommMonoid M] (f : ℕ → M) :
    ∀ (l : List ℕ) (a : M), l.foldl (fun s i => s + f i) a = a + (l.map f).sum := by
  intro l
  induction l with
  | nil => intro a; simp
  | cons x xs ih => intro a; simp [ih, add_assoc]

/-- Folding `fun s i => s + g i - h i` over a list is adding the mapped difference sum. -/
lemma foldl_add_sub_eq {M : Type} [AddCommGroup M] (g h : ℕ → M) :
    ∀ (l : List ℕ) (a : M), l.foldl (fun s i => s + g i - h i) a
      = a + (l.map (fun i => g i - h i)).sum := by
  intro l
  induction l with
  | nil => intro a; simp
  | cons x xs ih => intro a; simp [ih]; abel

/-- The default value of `getLastD` is irrelevant on a nonempty list. -/
lemma getLastD_irrel {α : Type} (l : List α) (h : l ≠ []) (d d' : α) :
    l.getLastD d = l.getLastD d' := by
  cases l with
  | nil => exact absurd rfl h
  | cons x xs =>
    rw [List.getLastD_eq_getLast?, List.getLastD_eq_getLast?,
        List.getLast?_eq_getLast (x :: xs) (by simp)]
    simp

/-- Zipping a nonempty list with its tail extended by one element appends the pair
`(last, z)` to the zip with the plain tail. -/
lemma zip_tail_append {α : Type} :
    ∀ (xs : List α) (x z : α),
      (x :: xs).zip (xs ++ [z]) = (x :: xs).zip xs ++ [((x :: xs).getLastD z, z)] := by
  intro xs
  induction xs with
  | nil => intro x z; simp
  | cons y ys ih =>
    intro x z
    have h1 : (x :: y :: ys).zip ((y :: ys) ++ [z])
        = (x, y) :: (y :: ys).zip (ys ++ [z]) := by simp
    rw [h1, ih y z]
    simp

/-- Index-based traversal of a nonempty vertex list (with `(i+1) % n` wrap) visits exactly
the cyclic consecutive pairs. -/
lemma range_map_cyclicPairs {M : Type} (f : Src.Point → Src.Point → M)
    (l : List Src.Point) (hl : l ≠ []) :
    (List.range l.length).map
        (fun i => f (l.getD i (0, 0)) (l.getD ((i + 1) % l.length) (0, 0)))
      = (Spec.cyclicPairs l).map (fun pq => f pq.1 pq.2) := by
  have hn : 0 < l.length := List.length_pos.mpr hl
  apply List.ext_getElem
  · simp [Spec.cyclicPairs]
  · intro i h1 h2
    have hi : i < l.length := by simpa using h1
    have hj : (i + 1) % l.length < l.length := Nat.mod_lt _ hn
    have hri : i < (l.rotate 1).length := by simpa using hi
    simp only [List.getElem_map, List.getElem_range, Spec.cyclicPairs, List.getElem_zip]
    rw [List.getD_eq_getElem l (0, 0) hi, List.getD_eq_getElem l (0, 0) hj,
        List.getElem_rotate l 1 i hri]

/-- Splitting the cyclic pair traversal into the open chain plus the closing pair. -/
lemma cyclicPairs_split (l : List Src.Point) (hl : l ≠ []) :
    Spec.cyclicPairs l
      = l.zip l.tail ++ [(l.getLastD (0, 0), l.headD (0, 0))] := by
  cases l with
  | nil => exact absurd rfl hl
  | cons x xs =>
    have hrot : (x :: xs).rotate 1 = xs ++ [x] := by
      simpa using List.rotate_cons_succ xs x 0
    unfold Spec.cyclicPairs
    rw [hrot, zip_tail_append xs x x]
    rw [getLastD_irrel (x :: xs) (by simp) x (0, 0)]
    simp

/-- The source's index loop for the shoelace area, re-expressed as the specification's
cyclic-pair sum, for any list of at least three vertices. -/
lemma calculatePolygonArea_eq_shoelace (l : List Src.Point) (h3 : 3 ≤ l.length) :
    Src.calculatePolygonArea l = Spec.shoelaceArea l := by
  have hnot : ¬ l.length < 3 := not_lt.mpr h3
  have hl : l ≠ [] := by
    intro e
    rw [e] at h3
    simp at h3
  unfold Src.calculatePolygonArea Spec.shoelaceArea Spec.crossSum
  rw [if_neg hnot]
  rw [foldl_add_sub_eq
        (fun i => (l.getD i (0, 0)).1 * (l.getD ((i + 1) % l.length) (0, 0)).2)
        (fun i => (l.getD ((i + 1) % l.length) (0, 0)).1 * (l.getD i (0, 0)).2)
        (List.range l.length) 0, zero_add]
  have hmap : (fun i => (l.getD i (0, 0)).1 * (l.getD ((i + 1) % l.length) (0, 0)).2
                - (l.getD ((i + 1) % l.length) (0, 0)).1 * (l.getD i (0, 0)).2)
      = (fun i => Spec.cross (l.getD i (0, 0)) (l.getD ((i + 1) % l.length) (0, 0))) := by
    funext i
    simp [Spec.cross]
  rw [hmap, range_map_cyclicPairs Spec.cross l hl]

/-- The two source copies of the shoelace area agree. -/
lemma polygonArea_eq_calculate (l : List Src.Point) :
    Src.polygonArea l = Src.calculatePolygonArea l := by
  unfold Src.polygonArea Src.calculatePolygonArea
  rw [mul_one_div]

/-- The source's index loop for the perimeter, re-expressed as the cyclic edge-length sum,
for any list of at least two vertices. -/
lemma calculatePolygonPerimeter_eq_cyclic (l : List Src.Point) (h2 : 2 ≤ l.length) :
    Src.calculatePolygonPerimeter l = Spec.cyclicLength l := by
  have hnot : ¬ l.length < 2 := not_lt.mpr h2
  have hl : l ≠ [] := by
    intro e
    rw [e] at h2
    simp at h2
  unfold Src.calculatePolygonPerimeter Spec.cyclicLength
  rw [if_neg hnot]
  rw [foldl_add_eq
        (fun i => Src.hypotQ ((l.getD ((i + 1) % l.length) (0, 0)).1 - (l.getD i (0, 0)).1)
                             ((l.getD ((i + 1) % l.length) (0, 0)).2 - (l.getD i (0, 0)).2))
        (List.range l.length) 0, zero_add]
  have hmap : (fun i => Src.hypotQ ((l.getD ((i + 1) % l.length) (0, 0)).1 - (l.getD i (0, 0)).1)
                  ((l.getD ((i + 1) % l.length) (0, 0)).2 - (l.getD i (0, 0)).2))
      = (fun i => Spec.dist (l.getD i (0, 0)) (l.getD ((i + 1) % l.length) (0, 0))) := by
    funext i
    simp [Spec.dist]
  rw [hmap, range_map_cyclicPairs Spec.dist l hl]

/-- The cyclic edge-length sum splits into the open chain plus the closing edge. -/
lemma cyclicLength_split (l : List Src.Point) :
    Spec.cyclicLength l = Spec.openLength l + Spec.closeLength l := by
  cases l with
  | nil => simp [Spec.cyclicLength, Spec.cyclicPairs, Spec.openLength, Spec.closeLength]
  | cons x xs =>
    unfold Spec.cyclicLength Spec.openLength Spec.closeLength
    rw [cyclicPairs_split (x :: xs) (by simp)]
    simp

/-- Distance from a point to itself is zero. -/
lemma dist_self (p : Src.Point) : Spec.dist p p = 0 := by
  simp [Spec.dist, Src.hypotQ]

/-- Summing any edge function over the cyclic pairs is invariant under one rotation step. -/
lemma sum_cyclic_rotate_one {M : Type} [AddCommMonoid M] (f : Src.Point → Src.Point → M) :
    ∀ l : List Src.Point,
      ((Spec.cyclicPairs (l.rotate 1)).map (fun pq => f pq.1 pq.2)).sum
        = ((Spec.cyclicPairs l).map (fun pq => f pq.1 pq.2)).sum := by
  intro l
  match l with
  | [] => simp [Spec.cyclicPairs]
  | [x] =>
    have h : ([x] : List Src.Point).rotate 1 = [x] := by
      simp
    rw [h]
  | x :: y :: ys =>
    have hr1 : (x :: y :: ys).rotate 1 = (y :: ys) ++ [x] := by
      simpa using List.rotate_cons_succ (y :: ys) x 0
    have hr2 : ((y :: ys) ++ [x]).rotate 1 = (ys ++ [x]) ++ [y] := by
      have := List.rotate_cons_succ (ys ++ [x]) y 0
      simpa using this
    have hlen : (y :: ys).length = (ys ++ [x]).length := by simp
    have hzip : Spec.cyclicPairs ((y :: ys) ++ [x])
        = (y :: ys).zip (ys ++ [x]) ++ [(x, y)] := by
      unfold Spec.cyclicPairs
      rw [hr2, List.zip_append hlen]
      simp
    have hzip2 : Spec.cyclicPairs (x :: y :: ys)
        = (x, y) :: (y :: ys).zip (ys ++ [x]) := by
      unfold Spec.cyclicPairs
      rw [show (x :: y :: ys).rotate 1 = y :: (ys ++ [x]) by simpa using hr1]
      simp
    rw [hr1, hzip, hzip2]
    simp [add_comm]

/-- Summing any edge function over the cyclic pairs is invariant under arbitrary rotation. -/
lemma sum_cyclic_rotate {M : Type} [AddCommMonoid M] (f : Src.Point → Src.Point → M)
    (l : List Src.Point) : ∀ k : ℕ,
      ((Spec.cyclicPairs (l.rotate k)).map (fun pq => f pq.1 pq.2)).sum
        = ((Spec.cyclicPairs l).map (fun pq => f pq.1 pq.2)).sum := by
  intro k
  induction k with
  | zero => rw [List.rotate_zero]
  | succ n ih =>
    have h : l.rotate (n + 1) = (l.rotate n).rotate 1 := by
      rw [List.rotate_rotate]
    rw [h, sum_cyclic_rotate_one f (l.rotate n), ih]

/-- Appending one vertex to a nonempty chain adds one closing edge term to the open sum. -/
lemma open_sum_append {M : Type} [AddCommMonoid M] (f : Src.Point → Src.Point → M) :
    ∀ (l : List Src.Point) (y : Src.Point), l ≠ [] →
      (((l ++ [y]).zip (l ++ [y]).tail).map (fun pq => f pq.1 pq.2)).sum
        = ((l.zip l.tail).map (fun pq => f pq.1 pq.2)).sum + f (l.getLastD (0, 0)) y := by
  intro l
  induction l with
  | nil => intro y h; exact absurd rfl h
  | cons a as ih =>
    intro y _
    cases as with
    | nil => simp
    | cons b bs =>
      have h1 : ((a :: b :: bs ++ [y]).zip (a :: b :: bs ++ [y]).tail)
          = (a, b) :: ((b :: bs ++ [y]).zip (b :: bs ++ [y]).tail) := by simp
      rw [h1]
      have h2 := ih y (by simp)
      simp only [List.cons_append] at h2 ⊢
      rw [List.map_cons, List.sum_cons, h2]
      have h3 : ((a :: b :: bs).zip (a :: b :: bs).tail)
          = (a, b) :: ((b :: bs).zip (b :: bs).tail) := by simp
      rw [h3, List.map_cons, List.sum_cons, add_assoc]
      congr 2

/-- Reversing a vertex list negates the open-chain shoelace sum. -/
lemma openCross_reverse : ∀ l : List Src.Point,
    Spec.openCross l.reverse = - Spec.openCross l := by
  intro l
  induction l with
  | nil => simp [Spec.openCross]
  | cons x xs ih =>
    cases xs with
    | nil => simp [Spec.openCross]
    | cons y ys =>
      have hrev : (x :: y :: ys).reverse = (y :: ys).reverse ++ [x] := by simp
      unfold Spec.openCross
      rw [hrev]
      rw [open_sum_append Spec.cross ((y :: ys).reverse) x (by simp)]
      have hlast : ((y :: ys).reverse).getLastD (0, 0) = y := by
        rw [List.getLastD_eq_getLast?, List.getLast?_reverse]
        simp
      rw [hlast]
      have h4 : ((x :: y :: ys).zip (x :: y :: ys).tail)
          = (x, y) :: ((y :: ys).zip (y :: ys).tail) := by simp
      rw [h4, List.map_cons, List.sum_cons]
      have ih' : ((((y :: ys).reverse).zip ((y :: ys).reverse).tail).map
            (fun pq => Spec.cross pq.1 pq.2)).sum
          = - (((y :: ys).zip (y :: ys).tail).map (fun pq => Spec.cross pq.1 pq.2)).sum := by
        simpa [Spec.openCross] using ih
      rw [ih']
      have hanti : Spec.cross y x = - Spec.cross x y := by
        simp [Spec.cross]
      rw [hanti]
      ring

/-- The full shoelace sum splits into the open chain plus the closing term. -/
lemma crossSum_split (l : List Src.Point) :
    Spec.crossSum l = Spec.openCross l + Spec.closeCross l := by
  cases l with
  | nil => simp [Spec.crossSum, Spec.cyclicPairs, Spec.openCross, Spec.closeCross]
  | cons x xs =>
    unfold Spec.crossSum Spec.openCross Spec.closeCross
    rw [cyclicPairs_split (x :: xs) (by simp)]
    simp

/-- Reversing a vertex list negates the full shoelace sum. -/
lemma crossSum_reverse (l : List Src.Point) :
    Spec.crossSum l.reverse = - Spec.crossSum l := by
  cases l with
  | nil => simp [Spec.crossSum, Spec.cyclicPairs]
  | cons x xs =>
    rw [crossSum_split, crossSum_split, openCross_reverse]
    have hne : (x :: xs).reverse ≠ [] := by simp
    have hclose : Spec.closeCross ((x :: xs).reverse) = - Spec.closeCross (x :: xs) := by
      unfold Spec.closeCross
      rw [if_neg hne, if_neg (by simp : ¬ (x :: xs) = [])]
      rw [List.getLastD_eq_getLast?, List.getLast?_reverse, List.headD_eq_head?,
          List.head?_reverse, ← List.getLastD_eq_getLast?, ← List.headD_eq_head?]
      simp [Spec.cross]
    rw [hclose]
    ring

/-- Closed-form evaluation of `hypotQ` at inputs with a rational hypotenuse. -/
lemma hypotQ_eval (a b c : ℚ) (hc : 0 ≤ c) (h : a * a + b * b = c * c) :
    Src.hypotQ a b = (c : ℝ) := by
  unfold Src.hypotQ
  rw [h]
  have hcast : ((c * c : ℚ) : ℝ) = (c : ℝ) ^ 2 := by
    push_cast
    ring
  rw [hcast, Real.sqrt_sq (by exact_mod_cast hc)]

/-- The source perimeter loop always computes the closed perimeter of the specification,
for vertex lists of every length. -/
lemma perimeter_code_eq_spec_true (l : List Src.Point) :
    Src.calculatePolygonPerimeter l = Spec.perimeter l true := by
  match l with
  | [] =>
    simp [Src.calculatePolygonPerimeter, Spec.perimeter, Spec.openLength, Spec.closeLength]
  | [x] =>
    have hcode : Src.calculatePolygonPerimeter [x] = 0 := by
      unfold Src.calculatePolygonPerimeter
      simp
    rw [hcode]
    unfold Spec.perimeter Spec.openLength Spec.closeLength
    simp [dist_self]
  | x :: y :: ys =>
    rw [calculatePolygonPerimeter_eq_cyclic (x :: y :: ys) (by simp),
        cyclicLength_split]
    unfold Spec.perimeter
    simp

/-- The two source copies of the perimeter loop agree. -/
lemma polygonPerimeter_eq_calculate (l : List Src.Point) :
    Src.polygonPerimeter l = Src.calculatePolygonPerimeter l := by
  unfold Src.polygonPerimeter Src.calculatePolygonPerimeter
  rfl

/-- Open-chain length of the unit square's vertex list is `3`. -/
lemma unitSquare_openLength : Spec.openLength unitSquare = 3 := by
  unfold unitSquare Spec.openLength Spec.dist
  simp only [List.tail_cons, List.zip_cons_cons, List.zip_nil_right, List.map_cons,
    List.map_nil, List.sum_cons, List.sum_nil]
  norm_num
  rw [hypotQ_eval 1 0 1 (by norm_num) (by norm_num),
      hypotQ_eval 0 1 1 (by norm_num) (by norm_num),
      hypotQ_eval (-1) 0 1 (by norm_num) (by norm_num)]
  norm_num

/-- Closing-edge length of the unit square's vertex list is `1`. -/
lemma unitSquare_closeLength : Spec.closeLength unitSquare = 1 := by
  unfold unitSquare Spec.closeLength Spec.dist
  norm_num
  rw [hypotQ_eval 0 (-1) 1 (by norm_num) (by norm_num)]
  norm_num

/-- Signed shoelace sum of the unit square is `2`. -/
lemma crossSum_unitSquare : Spec.crossSum unitSquare = 2 := by
  unfold unitSquare Spec.crossSum Spec.cyclicPairs Spec.cross
  have hrot : ([((0 : ℚ), (0 : ℚ)), (1, 0), (1, 1), (0, 1)] : List Src.Point).rotate 1
      = [(1, 0), (1, 1), (0, 1), (0, 0)] := by
    rw [List.rotate_cons_succ]
    simp
  rw [hrot]
  norm_num

/-- Shoelace area of the unit square is `1`. -/
lemma area_unitSquare : Src.calculatePolygonArea unitSquare = 1 := by
  rw [calculatePolygonArea_eq_shoelace _ (by norm_num [unitSquare])]
  unfold Spec.shoelaceArea
  rw [crossSum_unitSquare]
  norm_num

end Bridge

/-- Claim C1: `polygonArea` (aka `calculatePolygonArea`) computes the shoelace formula over
the vertex list treated as a closed loop (wrapping last point to first), returning
`abs (Σ (x_i·y_{i+1} − x_{i+1}·y_i)) / 2`, and for every vertex list of fewer than three
points it returns exactly `0` rather than erroring. -/
theorem claim_C1_polygonArea_shoelace :
    (∀ points : List Src.Point, 3 ≤ points.length →
        Src.calculatePolygonArea points = Spec.shoelaceArea points
          ∧ Src.polygonArea points = Spec.shoelaceArea points)
    ∧ (∀ points : List Src.Point, points.length < 3 →
        Src.calculatePolygonArea points = 0 ∧ Src.polygonArea points = 0) := by
  constructor
  · intro points h3
    refine ⟨Bridge.calculatePolygonArea_eq_shoelace points h3, ?_⟩
    rw [Bridge.polygonArea_eq_calculate]
    exact Bridge.calculatePolygonArea_eq_shoelace points h3
  · intro points hlt
    constructor
    · unfold Src.calculatePolygonArea
      rw [if_pos hlt]
    · unfold Src.polygonArea
      rw [if_pos hlt]

/-- Witness for C1: the unit square satisfies the shoelace refinement (its area is `1`),
and a two-point list yields `0`. -/
theorem claim_C1_polygonArea_shoelace_witness :
    Src.calculatePolygonArea Bridge.unitSquare = Spec.shoelaceArea Bridge.unitSquare
      ∧ Src.calculatePolygonArea [((0 : ℚ), (0 : ℚ)), (1, 0)] = 0 := by
  refine ⟨(claim_C1_polygonArea_shoelace.1 Bridge.unitSquare (by decide)).1,
    (claim_C1_polygonArea_shoelace.2 [((0 : ℚ), (0 : ℚ)), (1, 0)] (by decide)).1⟩

/-- Claim C2 counterexample: the claim asserts an open mode (`closed = false`) in which the
unit square's perimeter is `3.0`; the source's only perimeter function has no `closed`
parameter and returns `4.0` on the unit square, which differs from the claimed open value. -/
theorem claim_C2_counterexample :
    Spec.perimeter Bridge.unitSquare false = 3
      ∧ Src.calculatePolygonPerimeter Bridge.unitSquare = 4
      ∧ Src.calculatePolygonPerimeter Bridge.unitSquare ≠ Spec.perimeter Bridge.unitSquare false := by
  have hopen : Spec.perimeter Bridge.unitSquare false = 3 := by
    unfold Spec.perimeter
    rw [Bridge.unitSquare_openLength]
    norm_num
  have hclosed : Src.calculatePolygonPerimeter Bridge.unitSquare = 4 := by
    rw [Bridge.perimeter_code_eq_spec_true]
    unfold Spec.perimeter
    rw [Bridge.unitSquare_openLength, Bridge.unitSquare_closeLength]
    norm_num
  refine ⟨hopen, hclosed, ?_⟩
  rw [hopen, hclosed]
  norm_num

/-- Claim C2 (amended): the source's perimeter functions take no `closed` flag; both copies
always include the `last → first` closing edge, agreeing with the specification's
`perimeter(points, closed := true)` on every vertex list, and the unit square's perimeter
is `4.0` (the claimed open value `3.0` is never produced). -/
theorem claim_C2_perimeter_always_closed :
    (∀ points : List Src.Point,
        Src.calculatePolygonPerimeter points = Spec.perimeter points true)
    ∧ (∀ points : List Src.Point,
        Src.polygonPerimeter points = Spec.perimeter points true)
    ∧ Src.calculatePolygonPerimeter Bridge.unitSquare = 4 := by
  refine ⟨Bridge.perimeter_code_eq_spec_true, ?_, ?_⟩
  · intro points
    rw [Bridge.polygonPerimeter_eq_calculate]
    exact Bridge.perimeter_code_eq_spec_true points
  · rw [Bridge.perimeter_code_eq_spec_true]
    unfold Spec.perimeter
    rw [Bridge.unitSquare_openLength, Bridge.unitSquare_closeLength]
    norm_num

/-- Claim C6: `polygonArea` is unchanged by any cyclic rotation of the vertices and by
reversing their order; in particular the unit square has area `1.0` under every rotation
and under reversal. -/
theorem claim_C6_polygonArea_rotation_reversal :
    (∀ (points : List Src.Point) (k : ℕ),
        Src.calculatePolygonArea (points.rotate k) = Src.calculatePolygonArea points)
    ∧ (∀ points : List Src.Point,
        Src.calculatePolygonArea points.reverse = Src.calculatePolygonArea points)
    ∧ (∀ k : ℕ, Src.calculatePolygonArea (Bridge.unitSquare.rotate k) = 1)
    ∧ Src.calculatePolygonArea Bridge.unitSquare.reverse = 1 := by
  have hrot : ∀ (points : List Src.Point) (k : ℕ),
      Src.calculatePolygonArea (points.rotate k) = Src.calculatePolygonArea points := by
    intro points k
    by_cases h : points.length < 3
    · unfold Src.calculatePolygonArea
      rw [if_pos (by simpa using h), if_pos h]
    · have h3 : 3 ≤ points.length := not_lt.mp h
      have h3r : 3 ≤ (points.rotate k).length := by simpa using h3
      rw [Bridge.calculatePolygonArea_eq_shoelace _ h3r,
          Bridge.calculatePolygonArea_eq_shoelace _ h3]
      unfold Spec.shoelaceArea Spec.crossSum
      rw [Bridge.sum_cyclic_rotate Spec.cross points k]
  have hrev : ∀ points : List Src.Point,
      Src.calculatePolygonArea points.reverse = Src.calculatePolygonArea points := by
    intro points
    by_cases h : points.length < 3
    · unfold Src.calculatePolygonArea
      rw [if_pos (by simpa using h), if_pos h]
    · have h3 : 3 ≤ points.length := not_lt.mp h
      have h3r : 3 ≤ points.reverse.length := by simpa using h3
      rw [Bridge.calculatePolygonArea_eq_shoelace _ h3r,
          Bridge.calculatePolygonArea_eq_shoelace _ h3]
      unfold Spec.shoelaceArea
      rw [Bridge.crossSum_reverse, abs_neg]
  refine ⟨hrot, hrev, ?_, ?_⟩
  · intro k
    rw [hrot Bridge.unitSquare k]
    exact Bridge.area_unitSquare
  · rw [hrev Bridge.unitSquare]
    exact Bridge.area_unitSquare

/-- Claim C5: `pointToSegmentDistance p a b` returns the distance from `p` to the closest
point of segment `[a, b]` via the clamped projection parameter; when `a = b` it reduces to
the point-to-point distance, and `pointToSegmentDistance (5,5) (0,0) (10,0) = 5.0`. -/
theorem claim_C5_pointToSegmentDistance :
    (∀ p a : Src.Point,
        Src.pointToSegmentDistance p a a = Src.hypotQ (p.1 - a.1) (p.2 - a.2))
    ∧ (∀ p a b : Src.Point, a ≠ b →
        Src.pointToSegmentDistance p a b = Spec.segDistSpec p a b)
    ∧ Src.pointToSegmentDistance (5, 5) (0, 0) (10, 0) = 5 := by
  refine ⟨?_, ?_, ?_⟩
  · intro p a
    unfold Src.pointToSegmentDistance
    simp
  · intro p a b hab
    have hne : ¬ (b.1 - a.1 = 0 ∧ b.2 - a.2 = 0) := by
      intro ⟨h1, h2⟩
      exact hab (Prod.ext (by linarith) (by linarith)).symm
    unfold Src.pointToSegmentDistance Spec.segDistSpec
    rw [if_neg hne]
  · unfold Src.pointToSegmentDistance
    norm_num
    rw [Bridge.hypotQ_eval 0 5 5 (by norm_num) (by norm_num)]
    norm_num

/-- Witness for C5: the hypothesis `a ≠ b` is satisfiable — at `p = (5,5)`, `a = (0,0)`,
`b = (10,0)` the refinement to the specification's formula holds. -/
theorem claim_C5_pointToSegmentDistance_witness :
    Src.pointToSegmentDistance (5, 5) (0, 0) (10, 0)
      = Spec.segDistSpec (5, 5) (0, 0) (10, 0) :=
  claim_C5_pointToSegmentDistance.2.1 (5, 5) (0, 0) (10, 0)
    (by intro h; exact absurd (congrArg Prod.fst h) (by norm_num))

namespace Bridge

/-- Rational value of the captured numeral `11.3`. -/
lemma numCap_113 : Src.numCapToRat ['1', '1', '.', '3'] = 113 / 10 := by
  unfold Src.numCapToRat
  rw [show Src.intDigits ['1', '1', '.', '3'] = ['1', '1'] from by decide,
      show Src.fracDigits ['1', '1', '.', '3'] = ['3'] from by decide,
      show Src.digitsVal ['1', '1'] = 11 from by decide,
      show Src.digitsVal ['3'] = 3 from by decide]
  norm_num

/-- Rational value of the captured numeral `3`. -/
lemma numCap_3 : Src.numCapToRat ['3'] = 3 := by
  unfold Src.numCapToRat
  rw [show Src.intDigits ['3'] = ['3'] from by decide,
      show Src.fracDigits ['3'] = [] from by decide,
      show Src.digitsVal ['3'] = 3 from by decide,
      show Src.digitsVal [] = 0 from by decide]
  norm_num

/-- Rational value of the captured numeral `1`. -/
lemma numCap_1 : Src.numCapToRat ['1'] = 1 := by
  unfold Src.numCapToRat
  rw [show Src.intDigits ['1'] = ['1'] from by decide,
      show Src.fracDigits ['1'] = [] from by decide,
      show Src.digitsVal ['1'] = 1 from by decide,
      show Src.digitsVal [] = 0 from by decide]
  norm_num

/-- Rational value of the captured numeral `0`. -/
lemma numCap_0 : Src.numCapToRat ['0'] = 0 := by
  unfold Src.numCapToRat
  rw [show Src.intDigits ['0'] = ['0'] from by decide,
      show Src.fracDigits ['0'] = [] from by decide,
      show Src.digitsVal ['0'] = 0 from by decide,
      show Src.digitsVal [] = 0 from by decide]
  norm_num

/-- The decimal string `11.33` is captured by the first regex as `11.3` feet `3` inches:
backtracking shortens the fraction because the foot mark is optional. -/
lemma parseDistance_1133 : Src.parseDistance "11.33" = some (231 / 20) := by
  unfold Src.parseDistance
  rw [show Src.reFullMatch Src.feetInchesQuoteRe "11.33"
      = some [(2, ['3']), (1, ['1', '1', '.', '3'])] from by decide]
  show some (Src.numCapToRat ((List.lookup 1 [((2 : ℕ), ['3']), (1, ['1', '1', '.', '3'])]).getD [])
      + Src.numCapToRat ((List.lookup 2 [((2 : ℕ), ['3']), (1, ['1', '1', '.', '3'])]).getD []) / 12)
    = some (231 / 20)
  rw [show (List.lookup 1 [((2 : ℕ), ['3']), (1, ['1', '1', '.', '3'])]).getD ([] : List Char)
        = ['1', '1', '.', '3'] from by decide,
      show (List.lookup 2 [((2 : ℕ), ['3']), (1, ['1', '1', '.', '3'])]).getD ([] : List Char)
        = ['3'] from by decide]
  rw [numCap_113, numCap_3]
  norm_num

/-- The plain string `10` is captured by the first regex as `1` foot `0` inches. -/
lemma parseDistance_10 : Src.parseDistance "10" = some 1 := by
  unfold Src.parseDistance
  rw [show Src.reFullMatch Src.feetInchesQuoteRe "10"
      = some [(2, ['0']), (1, ['1'])] from by decide]
  show some (Src.numCapToRat ((List.lookup 1 [((2 : ℕ), ['0']), (1, ['1'])]).getD [])
      + Src.numCapToRat ((List.lookup 2 [((2 : ℕ), ['0']), (1, ['1'])]).getD []) / 12)
    = some 1
  rw [show (List.lookup 1 [((2 : ℕ), ['0']), (1, ['1'])]).getD ([] : List Char)
        = ['1'] from by decide,
      show (List.lookup 2 [((2 : ℕ), ['0']), (1, ['1'])]).getD ([] : List Char)
        = ['0'] from by decide]
  rw [numCap_1, numCap_0]
  norm_num

/-- Model `parseFloat` on the string `5x`: the numeric prefix `5` is accepted. -/
lemma parseFloatQ_5x : Src.parseFloatQ "5x" = some 5 := by
  unfold Src.parseFloatQ
  simp only []
  rw [show ("5x".toList.dropWhile Char.isWhitespace) = ['5', 'x'] from by decide]
  rw [show Src.floatSignRest ['5', 'x'] = ['5', 'x'] from by decide]
  rw [show (['5', 'x'].takeWhile Char.isDigit) = ['5'] from by decide,
      show (['5', 'x'].dropWhile Char.isDigit) = ['x'] from by decide]
  rw [show Src.fracPart ['x'] = [] from by decide,
      show Src.expRest ['x'] = ['x'] from by decide]
  rw [if_neg (by simp)]
  rw [show Src.floatExp ['x'] = 0 from by decide,
      show Src.floatSignVal ['5', 'x'] = 1 from by decide]
  rw [show Src.digitsVal ['5'] = 5 from by decide,
      show Src.digitsVal [] = 0 from by decide]
  norm_num

/-- The string `5x` matches neither regex, and `parseFloat` yields its numeric prefix `5`. -/
lemma parseDistance_5x : Src.parseDistance "5x" = some 5 := by
  unfold Src.parseDistance
  rw [show Src.reFullMatch Src.feetInchesQuoteRe "5x" = none from by decide,
      show Src.reFullMatch Src.feetInchesDashRe "5x" = none from by decide]
  exact parseFloatQ_5x

/-- Pixel distance of the two calibration points `(0,0)` and `(100,0)` is `100`. -/
lemma calculateDistance_100 :
    Src.calculateDistance [(0, 0), (100, 0)] = 100 := by
  unfold Src.calculateDistance
  norm_num
  rw [hypotQ_eval 100 0 100 (by norm_num) (by norm_num)]
  norm_num

end Bridge

/-- Claim C3 (code bug): the `parseDistance` comment and the calibration UI document a
plain decimal format (`"11.33"`), but because the foot mark in the first regex is
optional, backtracking parses `"11.33"` as `11.3` feet `3` inches, yielding `11.55`
(`231/20`) instead of the documented `11.33` (`1133/100`); moreover the unrecognized
string `"5x"` yields the guessed value `5` via `parseFloat` instead of a parse error. -/
theorem claim_C3_parseDistance_bug :
    Src.parseDistance "11.33" = some (231 / 20)
    ∧ (231 / 20 : ℚ) ≠ 1133 / 100
    ∧ Src.parseDistance "5x" = some 5 :=
  ⟨Bridge.parseDistance_1133, by norm_num, Bridge.parseDistance_5x⟩

/-- Claim C4 (code bug): with two points 100 px apart and entered distance `"10"` in feet,
`handleComplete` emits scale `100.0` px/ft, not the claimed `10.0`, because
`parseDistance "10"` returns `1` (one foot, zero inches) rather than `10`. -/
theorem claim_C4_calibration_scale_bug :
    Src.handleComplete [(0, 0), (100, 0)] "10" Src.CalUnit.ft = some (100 : ℝ)
    ∧ (100 : ℝ) ≠ 10 := by
  constructor
  · unfold Src.handleComplete
    rw [Bridge.parseDistance_10, Bridge.calculateDistance_100]
    show (if (1 : ℚ) = 0 ∨ (1 : ℚ) ≤ 0 ∨ (100 : ℝ) ≤ 0 then (none : Option ℝ)
        else some ((100 : ℝ) / ((1 : ℚ) : ℝ))) = some 100
    rw [if_neg (by norm_num : ¬ ((1 : ℚ) = 0 ∨ (1 : ℚ) ≤ 0 ∨ (100 : ℝ) ≤ 0))]
    norm_num
  · norm_num

namespace Bridge

/-- Unfolding equation for the flat-array branch of `toPairs`. -/
lemma toPairs_nums (l : List ℚ) :
    Src.toPairs (.nums l)
      = (List.range' 0 ((l.length + 1) / 2) 2).map (fun i => (l[i]?, l[i + 1]?)) := rfl

/-- Index shift for stepped ranges under `map`. -/
lemma range'_map_shift {β : Type} (g : ℕ → β) :
    ∀ (n s : ℕ), (List.range' (s + 2) n 2).map g = (List.range' s n 2).map (fun i => g (i + 2)) := by
  intro n
  induction n with
  | zero => intro s; simp
  | succ m ih =>
    intro s
    rw [List.range'_succ, List.range'_succ]
    simp only [List.map_cons]
    rw [ih (s + 2)]

/-- The flat-array branch of `toPairs` equals its recursive description. -/
lemma toPairs_nums_eq_chunk : ∀ l : List ℚ, Src.toPairs (.nums l) = chunk l
  | [] => by
    rw [toPairs_nums]
    unfold chunk
    simp
  | [x] => by
    rw [toPairs_nums]
    unfold chunk
    simp
  | x :: y :: rest => by
    rw [toPairs_nums]
    unfold chunk
    have hlen : ((x :: y :: rest).length + 1) / 2 = (rest.length + 1) / 2 + 1 := by
      simp only [List.length_cons]
      omega
    rw [hlen, List.range'_succ]
    simp only [List.map_cons]
    rw [range'_map_shift (fun i => ((x :: y :: rest)[i]?, (x :: y :: rest)[i + 1]?))
        ((rest.length + 1) / 2) 0]
    have hshift : (fun i => ((x :: y :: rest)[i + 2]?, (x :: y :: rest)[i + 2 + 1]?))
        = (fun i => (rest[i]?, rest[i + 1]?)) := by
      funext i
      simp [List.getElem?_cons_succ]
    have hrec := toPairs_nums_eq_chunk rest
    rw [toPairs_nums] at hrec
    simp only [hshift]
    rw [hrec]
    simp

/-- `chunk` of a nonempty list is nonempty. -/
lemma chunk_ne_nil : ∀ l : List ℚ, l ≠ [] → chunk l ≠ []
  | [], h => absurd rfl h
  | [x], _ => by
    unfold chunk
    simp
  | x :: y :: rest, _ => by
    unfold chunk
    simp

/-- For an odd-length list, `chunk` ends with a half-defined pair. -/
lemma chunk_odd : ∀ l : List ℚ, l.length % 2 = 1 →
    ∃ x : ℚ, (chunk l).getLast? = some (some x, none)
  | [], h => by simp at h
  | [x], _ => ⟨x, by unfold chunk; simp⟩
  | x :: y :: rest, h => by
    have hodd : rest.length % 2 = 1 := by
      simp only [List.length_cons] at h
      omega
    obtain ⟨c, hc⟩ := chunk_odd rest hodd
    refine ⟨c, ?_⟩
    unfold chunk
    have hne : rest ≠ [] := by
      intro e
      rw [e] at hodd
      simp at hodd
    obtain ⟨d, ds, hds⟩ : ∃ d ds, chunk rest = d :: ds := by
      cases hch : chunk rest with
      | nil => exact absurd hch (chunk_ne_nil rest hne)
      | cons d ds => exact ⟨d, ds, rfl⟩
    rw [hds, List.getLast?_cons_cons, ← hds, hc]

/-- For an even-length list, every pair `chunk` produces is fully defined. -/
lemma chunk_even : ∀ l : List ℚ, l.length % 2 = 0 →
    ∀ p ∈ chunk l, p.1.isSome ∧ p.2.isSome
  | [], _ => by
    unfold chunk
    simp
  | [x], h => by simp at h
  | x :: y :: rest, h => by
    have heven : rest.length % 2 = 0 := by
      simp only [List.length_cons] at h
      omega
    intro p hp
    unfold chunk at hp
    rcases List.mem_cons.mp hp with h1 | h2
    · rw [h1]
      exact ⟨rfl, rfl⟩
    · exact chunk_even rest heven p h2

end Bridge

/-- Claim C10: for every flat numeric array of odd length, `toPairs` reads one element
past the end of the array, so its last returned point has an undefined (`none`)
y-coordinate; `toPairs` only produces fully-defined points on an array already in pair
form or on a flat numeric array of even length. -/
theorem claim_C10_toPairs_odd_undefined :
    (∀ l : List ℚ, l.length % 2 = 1 →
        ∃ x : ℚ, (Src.toPairs (.nums l)).getLast? = some (some x, none))
    ∧ (∀ l : List ℚ, l.length % 2 = 0 →
        ∀ p ∈ Src.toPairs (.nums l), p.1.isSome ∧ p.2.isSome)
    ∧ (∀ l : List Src.Point, ∀ p ∈ Src.toPairs (.pts l), p.1.isSome ∧ p.2.isSome) := by
  refine ⟨?_, ?_, ?_⟩
  · intro l h
    rw [Bridge.toPairs_nums_eq_chunk l]
    exact Bridge.chunk_odd l h
  · intro l h
    rw [Bridge.toPairs_nums_eq_chunk l]
    exact Bridge.chunk_even l h
  · intro l p hp
    unfold Src.toPairs at hp
    obtain ⟨q, _, hq⟩ := List.mem_map.mp hp
    rw [← hq]
    exact ⟨rfl, rfl⟩

/-- Witness for C10: the odd-length array `[1, 2, 3]` ends in a half-defined pair, and
the even-length array `[1, 2]` produces only fully-defined pairs. -/
theorem claim_C10_toPairs_odd_undefined_witness :
    (([(1 : ℚ), 2, 3].length % 2 = 1)
      ∧ ∃ x : ℚ, (Src.toPairs (.nums [1, 2, 3])).getLast? = some (some x, none))
    ∧ (∀ p ∈ Src.toPairs (.nums [(1 : ℚ), 2]), p.1.isSome ∧ p.2.isSome) :=
  ⟨⟨by decide, claim_C10_toPairs_odd_undefined.1 [1, 2, 3] (by decide)⟩,
    claim_C10_toPairs_odd_undefined.2.1 [1, 2] (by decide)⟩

/-- Claim C9 (code bug): the location view's room-to-item grouping is not a deterministic
function of the analysis results and user edits — it draws `Math.random()` to decide wall
(and opening) membership, so two evaluations on identical input can produce different room
groups.  With one room and one wall, the all-ones random stream keeps the wall in the
room's `Walls` item while the all-zeros stream drops it. -/
theorem claim_C9_locationView_random :
    Src.locationView (fun _ => 1) (fun _ => none) [Bridge.roomFixture] [Bridge.wallFixture] []
      ≠ Src.locationView (fun _ => 0) (fun _ => none) [Bridge.roomFixture] [Bridge.wallFixture] [] := by
  intro h
  simp only [Src.locationView, Src.locationViewGo, Src.roomItems, Src.filterDrawAll,
    Src.filterClsDraw, Src.pickName] at h
  norm_num at h
  simp [Bridge.roomFixture, Bridge.wallFixture, List.filter] at h

namespace Bridge

/-- Reading a list back by indices reproduces the list. -/
lemma range_map_getD {α : Type} (l : List α) (d : α) :
    (List.range l.length).map (fun i => l.getD i d) = l := by
  apply List.ext_getElem
  · simp
  · intro i h1 h2
    have hi : i < l.length := by simpa using h1
    simp only [List.getElem_map, List.getElem_range]
    exact List.getD_eq_getElem l d hi

/-- With an empty secondary list the reconciliation loop is the identity on its state. -/
lemma reconcileLoop_nil (iou : List Src.Point → List Src.Point → ℚ) (thr : ℚ)
    (primary : List Model.Det) (s : ℕ) (claimed : List ℕ) (out : List Model.RecDet) :
    Model.reconcileLoop iou thr primary s [] claimed out = (claimed, out) := rfl

/-- With no claimed indices and only nonzero-area primaries, the unclaimed-primary pass
emits every primary detection once, in order, with primary-only provenance. -/
lemma unclaimedPrimaries_all (primary : List Model.Det)
    (h : ∀ d ∈ primary, Src.calculatePolygonArea d.region ≠ 0) :
    Model.unclaimedPrimaries primary []
      = (List.range primary.length).map
          (fun i => ⟨primary.getD i Model.dDefault, .primaryOnly, some i, none⟩) := by
  unfold Model.unclaimedPrimaries
  congr 1
  apply List.filter_eq_self.mpr
  intro i hi
  have hilt : i < primary.length := List.mem_range.mp hi
  have hmem : primary.getD i Model.dDefault ∈ primary := by
    rw [List.getD_eq_getElem primary Model.dDefault hilt]
    exact List.getElem_mem hilt
  have harea := h _ hmem
  simp only [List.getD, List.get?_eq_getElem?] at harea
  simp [harea]

/-- Best match against an empty primary list always fails. -/
lemma bestMatch_nil (iou : List Src.Point → List Src.Point → ℚ)
    (claimed : List ℕ) (d : Model.Det) : Model.bestMatch iou [] claimed d = none := rfl

/-- Peeling the first index off a mapped index range. -/
lemma map_range_succ_shift {α : Type} (f : ℕ → α) (n : ℕ) :
    (List.range (n + 1)).map f = f 0 :: (List.range n).map (fun j => f (j + 1)) := by
  rw [List.range_succ_eq_map]
  simp [List.map_map, Function.comp_def]

/-- With an empty primary list, the loop appends every nonzero-area secondary detection
in order with secondary-only provenance. -/
lemma reconcileLoop_nil_primary (iou : List Src.Point → List Src.Point → ℚ) (thr : ℚ) :
    ∀ (B : List Model.Det) (s : ℕ) (claimed : List ℕ) (out : List Model.RecDet),
      (∀ d ∈ B, Src.calculatePolygonArea d.region ≠ 0) →
      Model.reconcileLoop iou thr [] s B claimed out
        = (claimed, out ++ (List.range B.length).map
            (fun j => ⟨B.getD j Model.dDefault, .secondaryOnly, none, some (s + j)⟩)) := by
  intro B
  induction B with
  | nil => intro s claimed out _; simp [reconcileLoop_nil]
  | cons d rest ih =>
    intro s claimed out hB
    have hd : ¬ Src.calculatePolygonArea d.region = 0 := hB d (by simp)
    have hstep : Model.reconcileLoop iou thr [] s (d :: rest) claimed out
        = Model.reconcileLoop iou thr [] (s + 1) rest claimed
            (out ++ [⟨d, .secondaryOnly, none, some s⟩]) := by
      conv_lhs => rw [Model.reconcileLoop]
      rw [if_neg hd, bestMatch_nil iou claimed d]
    rw [hstep]
    rw [ih (s + 1) claimed _ (fun x hx => hB x (by simp [hx]))]
    simp only [List.length_cons, map_range_succ_shift, List.getD_cons_zero, Nat.add_zero,
      List.getD_cons_succ, List.append_assoc, List.singleton_append]
    have hmap : (List.range rest.length).map
          (fun j => (⟨rest.getD j Model.dDefault, .secondaryOnly, none,
            some (s + 1 + j)⟩ : Model.RecDet))
        = (List.range rest.length).map
          (fun j => (⟨rest.getD j Model.dDefault, .secondaryOnly, none,
            some (s + (j + 1))⟩ : Model.RecDet)) := by
      apply List.map_congr_left
      intro j _
      rw [show s + 1 + j = s + (j + 1) from by omega]
    rw [hmap]

end Bridge

/-- Claim C7 counterexample: the passthrough law `reconcile(A, []) == A` fails as
universally stated, because the spec's reconciler skips zero-area regions entirely
(they are "not matched, not emitted"): a primary list holding one detection with an
empty (zero-area) region reconciles to the empty output. -/
theorem claim_C7_counterexample :
    (Model.reconcile (fun _ _ => 0) (2 / 5) [⟨"door", 9 / 10, []⟩] []).map Model.RecDet.det
      ≠ [(⟨"door", 9 / 10, []⟩ : Model.Det)] := by
  have hz : Src.calculatePolygonArea ([] : List Src.Point) = 0 := by
    unfold Src.calculatePolygonArea
    norm_num
  unfold Model.reconcile
  rw [Bridge.reconcileLoop_nil]
  unfold Model.unclaimedPrimaries
  simp [hz, List.range_succ, Model.dDefault]

/-- Claim C7 (amended): for detection lists whose regions all have nonzero shoelace
area, reconciliation with an empty counterpart list is the identity passthrough —
`reconcile(A, [])` returns exactly the detections of `A` in order (primary-only
provenance) and `reconcile([], B)` returns exactly the detections of `B` in order
(secondary-only provenance); zero-area detections are dropped, per the spec's
zero-area rule. -/
theorem claim_C7_reconcile_passthrough :
    (∀ (iou : List Src.Point → List Src.Point → ℚ) (thr : ℚ) (A : List Model.Det),
        (∀ d ∈ A, Src.calculatePolygonArea d.region ≠ 0) →
        (Model.reconcile iou thr A []).map Model.RecDet.det = A
          ∧ ∀ e ∈ Model.reconcile iou thr A [], e.provenance = Model.Provenance.primaryOnly)
    ∧ (∀ (iou : List Src.Point → List Src.Point → ℚ) (thr : ℚ) (B : List Model.Det),
        (∀ d ∈ B, Src.calculatePolygonArea d.region ≠ 0) →
        (Model.reconcile iou thr [] B).map Model.RecDet.det = B
          ∧ ∀ e ∈ Model.reconcile iou thr [] B, e.provenance = Model.Provenance.secondaryOnly) := by
  constructor
  · intro iou thr A hA
    have hre : Model.reconcile iou thr A []
        = (List.range A.length).map
            (fun i => ⟨A.getD i Model.dDefault, .primaryOnly, some i, none⟩) := by
      unfold Model.reconcile
      rw [Bridge.reconcileLoop_nil, Bridge.unclaimedPrimaries_all A hA]
      simp
    constructor
    · rw [hre, List.map_map]
      exact Bridge.range_map_getD A Model.dDefault
    · intro e he
      rw [hre] at he
      obtain ⟨i, _, hei⟩ := List.mem_map.mp he
      rw [← hei]
  · intro iou thr B hB
    have hre : Model.reconcile iou thr [] B
        = (List.range B.length).map
            (fun j => ⟨B.getD j Model.dDefault, .secondaryOnly, none, some j⟩) := by
      unfold Model.reconcile
      rw [Bridge.reconcileLoop_nil_primary iou thr B 0 [] [] hB]
      unfold Model.unclaimedPrimaries
      simp
    constructor
    · rw [hre, List.map_map]
      exact Bridge.range_map_getD B Model.dDefault
    · intro e he
      rw [hre] at he
      obtain ⟨j, _, hej⟩ := List.mem_map.mp he
      rw [← hej]

namespace Bridge

/-- A successful `bestMatch` returns an unclaimed in-range primary index. -/
lemma bestMatch_foldl_mem {g : ℕ → ℚ} :
    ∀ (lst : List ℕ) (acc : Option (ℕ × ℚ)) (iv : ℕ × ℚ),
      lst.foldl (fun acc i =>
        match acc with
        | none => some (i, g i)
        | some jw => if g i > jw.2 then some (i, g i) else acc) acc = some iv →
      acc = some iv ∨ iv.1 ∈ lst := by
  intro lst
  induction lst with
  | nil => intro acc iv h; exact Or.inl h
  | cons i rest ih =>
    intro acc iv h
    rw [List.foldl_cons] at h
    rcases ih _ iv h with h1 | h2
    · match acc with
      | none =>
        simp only [] at h1
        rw [← Option.some_inj.mp h1]
        exact Or.inr (by simp)
      | some jw =>
        simp only [] at h1
        by_cases hgt : g i > jw.2
        · rw [if_pos hgt] at h1
          rw [← Option.some_inj.mp h1]
          exact Or.inr (by simp)
        · rw [if_neg hgt] at h1
          exact Or.inl h1
    · exact Or.inr (by simp [h2])

/-- A successful `bestMatch` picks an index that is unclaimed and within the primary list. -/
lemma bestMatch_some (iou : List Src.Point → List Src.Point → ℚ) (primary : List Model.Det)
    (claimed : List ℕ) (d : Model.Det) (iv : ℕ × ℚ)
    (h : Model.bestMatch iou primary claimed d = some iv) :
    iv.1 ∉ claimed ∧ iv.1 < primary.length := by
  unfold Model.bestMatch at h
  rcases bestMatch_foldl_mem _ _ _ h with h1 | h2
  · exact absurd h1 (by simp)
  · have hmem := List.mem_filter.mp h2
    have hrange := List.mem_range.mp hmem.1
    have hpred := hmem.2
    simp only [Bool.and_eq_true, decide_eq_true_eq] at hpred
    exact ⟨hpred.1.1, hrange⟩

/-- Loop step: a zero-area secondary detection is skipped. -/
lemma reconcileLoop_cons_zero (iou : List Src.Point → List Src.Point → ℚ) (thr : ℚ)
    (primary : List Model.Det) (s : ℕ) (d : Model.Det) (rest : List Model.Det)
    (claimed : List ℕ) (out : List Model.RecDet)
    (hz : Src.calculatePolygonArea d.region = 0) :
    Model.reconcileLoop iou thr primary s (d :: rest) claimed out
      = Model.reconcileLoop iou thr primary (s + 1) rest claimed out := by
  conv_lhs => rw [Model.reconcileLoop]
  rw [if_pos hz]

/-- Loop step: no unclaimed same-class primary matches, so the secondary detection is
emitted as a new unique result. -/
lemma reconcileLoop_cons_nomatch (iou : List Src.Point → List Src.Point → ℚ) (thr : ℚ)
    (primary : List Model.Det) (s : ℕ) (d : Model.Det) (rest : List Model.Det)
    (claimed : List ℕ) (out : List Model.RecDet)
    (hz : ¬ Src.calculatePolygonArea d.region = 0)
    (hb : Model.bestMatch iou primary claimed d = none) :
    Model.reconcileLoop iou thr primary s (d :: rest) claimed out
      = Model.reconcileLoop iou thr primary (s + 1) rest claimed
          (out ++ [⟨d, .secondaryOnly, none, some s⟩]) := by
  conv_lhs => rw [Model.reconcileLoop]
  rw [if_neg hz, hb]

/-- Loop step: the best match meets the threshold, so the pair merges — the higher
confidence wins (ties favour primary) and the primary index becomes claimed. -/
lemma reconcileLoop_cons_merge (iou : List Src.Point → List Src.Point → ℚ) (thr : ℚ)
    (primary : List Model.Det) (s : ℕ) (d : Model.Det) (rest : List Model.Det)
    (claimed : List ℕ) (out : List Model.RecDet) (i : ℕ) (v : ℚ)
    (hz : ¬ Src.calculatePolygonArea d.region = 0)
    (hb : Model.bestMatch iou primary claimed d = some (i, v))
    (hv : v ≥ thr) :
    Model.reconcileLoop iou thr primary s (d :: rest) claimed out
      = Model.reconcileLoop iou thr primary (s + 1) rest (i :: claimed)
          (out ++ [⟨if d.conf > (primary.getD i Model.dDefault).conf then d
                    else primary.getD i Model.dDefault, .both, some i, some s⟩]) := by
  conv_lhs => rw [Model.reconcileLoop]
  rw [if_neg hz, hb]
  show (if v ≥ thr then
      Model.reconcileLoop iou thr primary (s + 1) rest (i :: claimed)
        (out ++ [⟨if d.conf > (primary.getD i Model.dDefault).conf then d
                  else primary.getD i Model.dDefault, .both, some i, some s⟩])
    else Model.reconcileLoop iou thr primary (s + 1) rest claimed
        (out ++ [⟨d, .secondaryOnly, none, some s⟩])) = _
  rw [if_pos hv]

/-- Loop step: the best match is below the threshold, so the secondary detection is
emitted as a new unique result. -/
lemma reconcileLoop_cons_low (iou : List Src.Point → List Src.Point → ℚ) (thr : ℚ)
    (primary : List Model.Det) (s : ℕ) (d : Model.Det) (rest : List Model.Det)
    (claimed : List ℕ) (out : List Model.RecDet) (i : ℕ) (v : ℚ)
    (hz : ¬ Src.calculatePolygonArea d.region = 0)
    (hb : Model.bestMatch iou primary claimed d = some (i, v))
    (hv : ¬ v ≥ thr) :
    Model.reconcileLoop iou thr primary s (d :: rest) claimed out
      = Model.reconcileLoop iou thr primary (s + 1) rest claimed
          (out ++ [⟨d, .secondaryOnly, none, some s⟩]) := by
  conv_lhs => rw [Model.reconcileLoop]
  rw [if_neg hz, hb]
  show (if v ≥ thr then
      Model.reconcileLoop iou thr primary (s + 1) rest (i :: claimed)
        (out ++ [⟨if d.conf > (primary.getD i Model.dDefault).conf then d
                  else primary.getD i Model.dDefault, .both, some i, some s⟩])
    else Model.reconcileLoop iou thr primary (s + 1) rest claimed
        (out ++ [⟨d, .secondaryOnly, none, some s⟩])) = _
  rw [if_neg hv]

/-- Appending a freshly emitted entry preserves the loop invariant (for the two
emitting branches: `fp` is `none` for a unique secondary, `some i` with `i` fresh
for a merge). -/
lemma outInv_append (claimed : List ℕ) (s : ℕ) (out : List Model.RecDet)
    (inv : OutInv claimed s out) (det : Model.Det) (pv : Model.Provenance)
    (fp : Option ℕ) (claimed' : List ℕ)
    (hsub : ∀ c ∈ claimed, c ∈ claimed')
    (hfp : ∀ j : ℕ, fp = some j → j ∈ claimed' ∧ j ∉ claimed) :
    OutInv claimed' (s + 1) (out ++ [⟨det, pv, fp, some s⟩]) := by
  obtain ⟨i1, i2, i3, i4⟩ := inv
  refine ⟨?_, ?_, ?_, ?_⟩
  · intro e he j hj
    rcases List.mem_append.mp he with h | h
    · exact hsub j (i1 e h j hj)
    · rw [List.mem_singleton.mp h] at hj
      exact (hfp j hj).1
  · intro i
    rw [List.countP_append, List.countP_cons, List.countP_nil]
    by_cases hcase : fp = some i
    · have hzero : out.countP (fun e => decide (e.fromPrimary = some i)) = 0 := by
        rw [List.countP_eq_zero]
        intro e he
        simp only [decide_eq_true_eq]
        intro hc
        exact (hfp i hcase).2 (i1 e he i hc)
      rw [hzero]
      simp only [Model.RecDet.fromPrimary]
      split <;> simp
    · have : (decide ((⟨det, pv, fp, some s⟩ : Model.RecDet).fromPrimary = some i)) = false := by
        simpa using hcase
      rw [this]
      simpa using i2 i
  · intro e he t ht
    rcases List.mem_append.mp he with h | h
    · exact Nat.lt_succ_of_lt (i3 e h t ht)
    · rw [List.mem_singleton.mp h] at ht
      simp only at ht
      rw [Option.some_inj.mp ht]
      omega
  · intro t
    rw [List.countP_append, List.countP_cons, List.countP_nil]
    by_cases hcase : t = s
    · have hzero : out.countP (fun e => decide (e.fromSecondary = some t)) = 0 := by
        rw [List.countP_eq_zero]
        intro e he
        simp only [decide_eq_true_eq]
        intro hc
        have := i3 e he t hc
        omega
      rw [hzero]
      simp only [Model.RecDet.fromSecondary]
      split <;> simp
    · have : (decide ((⟨det, pv, fp, some s⟩ : Model.RecDet).fromSecondary = some t)) = false := by
        simp
        intro h
        exact absurd h.symm hcase
      rw [this]
      simpa using i4 t

/-- The reconciliation loop preserves the invariant and only grows the claimed set. -/
lemma reconcileLoop_inv (iou : List Src.Point → List Src.Point → ℚ) (thr : ℚ)
    (primary : List Model.Det) :
    ∀ (B : List Model.Det) (s : ℕ) (claimed : List ℕ) (out : List Model.RecDet),
      OutInv claimed s out →
      (∀ e ∈ (Model.reconcileLoop iou thr primary s B claimed out).2, ∀ j : ℕ,
          e.fromPrimary = some j → j ∈ (Model.reconcileLoop iou thr primary s B claimed out).1)
      ∧ (∀ i : ℕ, (Model.reconcileLoop iou thr primary s B claimed out).2.countP
            (fun e => decide (e.fromPrimary = some i)) ≤ 1)
      ∧ (∀ t : ℕ, (Model.reconcileLoop iou thr primary s B claimed out).2.countP
            (fun e => decide (e.fromSecondary = some t)) ≤ 1)
      ∧ (∀ c ∈ claimed, c ∈ (Model.reconcileLoop iou thr primary s B claimed out).1) := by
  intro B
  induction B with
  | nil =>
    intro s claimed out inv
    rw [reconcileLoop_nil]
    exact ⟨inv.1, inv.2.1, inv.2.2.2, fun c hc => hc⟩
  | cons d rest ih =>
    intro s claimed out inv
    by_cases hz : Src.calculatePolygonArea d.region = 0
    · rw [reconcileLoop_cons_zero iou thr primary s d rest claimed out hz]
      have inv' : OutInv claimed (s + 1) out :=
        ⟨inv.1, inv.2.1, fun e he t ht => Nat.lt_succ_of_lt (inv.2.2.1 e he t ht), inv.2.2.2⟩
      exact ih (s + 1) claimed out inv'
    · cases hbm : Model.bestMatch iou primary claimed d with
      | none =>
        rw [reconcileLoop_cons_nomatch iou thr primary s d rest claimed out hz hbm]
        have inv' : OutInv claimed (s + 1) (out ++ [⟨d, .secondaryOnly, none, some s⟩]) :=
          outInv_append claimed s out inv d .secondaryOnly none claimed
            (fun c hc => hc) (fun j hj => by simp at hj)
        exact ih (s + 1) claimed _ inv'
      | some iv =>
        have hfresh := bestMatch_some iou primary claimed d iv hbm
        by_cases hv : iv.2 ≥ thr
        · rw [reconcileLoop_cons_merge iou thr primary s d rest claimed out iv.1 iv.2 hz
              (by rw [hbm]) hv]
          have inv' : OutInv (iv.1 :: claimed) (s + 1)
              (out ++ [⟨if d.conf > (primary.getD iv.1 Model.dDefault).conf then d
                        else primary.getD iv.1 Model.dDefault, .both, some iv.1, some s⟩]) :=
            outInv_append claimed s out inv _ .both (some iv.1) (iv.1 :: claimed)
              (fun c hc => by simp [hc])
              (fun j hj => by
                cases Option.some_inj.mp hj
                exact ⟨by simp, hfresh.1⟩)
          have hres := ih (s + 1) (iv.1 :: claimed) _ inv'
          exact ⟨hres.1, hres.2.1, hres.2.2.1,
            fun c hc => hres.2.2.2 c (by simp [hc])⟩
        · rw [reconcileLoop_cons_low iou thr primary s d rest claimed out iv.1 iv.2 hz
              (by rw [hbm]) hv]
          have inv' : OutInv claimed (s + 1) (out ++ [⟨d, .secondaryOnly, none, some s⟩]) :=
            outInv_append claimed s out inv d .secondaryOnly none claimed
              (fun c hc => hc) (fun j hj => by simp at hj)
          exact ih (s + 1) claimed _ inv'

/-- The fixtures have nonzero area. -/
lemma win9_area : ¬ Src.calculatePolygonArea win9.region = 0 := by
  rw [show win9.region = unitSquare from rfl, area_unitSquare]
  norm_num

/-- The fixtures have nonzero area. -/
lemma win7_area : ¬ Src.calculatePolygonArea win7.region = 0 := by
  rw [show win7.region = unitSquare from rfl, area_unitSquare]
  norm_num

/-- In a duplicate-free index list, at most one entry equals `i`. -/
lemma countP_eq_le_one (i : ℕ) :
    ∀ l : List ℕ, l.Nodup → l.countP (fun j => decide (j = i)) ≤ 1 := by
  intro l
  induction l with
  | nil => intro _; simp
  | cons a t ih =>
    intro hnd
    rw [List.countP_cons]
    by_cases ha : a = i
    · have hzero : t.countP (fun j => decide (j = i)) = 0 := by
        rw [List.countP_eq_zero]
        intro j hj
        simp only [decide_eq_true_eq]
        intro hji
        have hit : i ∈ t := hji ▸ hj
        exact (List.nodup_cons.mp hnd).1 (by rw [ha]; exact hit)
      rw [hzero]
      simp [ha]
    · have : (decide (a = i)) = false := by simpa using ha
      rw [this]
      simpa using ih (List.nodup_cons.mp hnd).2

/-- Each primary index contributes at most once to the unclaimed-primary pass, and a
claimed index contributes to it not at all. -/
lemma unclaimed_fp_countP (primary : List Model.Det) (claimed : List ℕ) (i : ℕ) :
    (Model.unclaimedPrimaries primary claimed).countP
        (fun e => decide (e.fromPrimary = some i)) ≤ 1
    ∧ (i ∈ claimed → (Model.unclaimedPrimaries primary claimed).countP
        (fun e => decide (e.fromPrimary = some i)) = 0) := by
  unfold Model.unclaimedPrimaries
  rw [List.countP_map]
  have hfun : ((fun e : Model.RecDet => decide (e.fromPrimary = some i)) ∘
      (fun j => (⟨primary.getD j Model.dDefault, .primaryOnly, some j, none⟩ : Model.RecDet)))
      = fun j => decide (j = i) := by
    funext j
    simp [Function.comp]
  rw [hfun]
  constructor
  · exact countP_eq_le_one i _ ((List.nodup_range _).filter _)
  · intro hi
    rw [List.countP_eq_zero]
    intro j hj
    simp only [decide_eq_true_eq]
    intro hji
    have hpred := (List.mem_filter.mp hj).2
    simp only [Bool.and_eq_true, decide_eq_true_eq] at hpred
    exact hpred.1 (by rw [hji]; exact hi)

/-- No secondary position contributes to the unclaimed-primary pass. -/
lemma unclaimed_fs_countP (primary : List Model.Det) (claimed : List ℕ) (t : ℕ) :
    (Model.unclaimedPrimaries primary claimed).countP
        (fun e => decide (e.fromSecondary = some t)) = 0 := by
  rw [List.countP_eq_zero]
  intro e he
  obtain ⟨j, _, hj⟩ := List.mem_map.mp he
  simp [← hj]

/-- The two window fixtures merge: the constant-`0.6` IoU meets the `0.4` threshold, the
primary detection wins on confidence, and index `0` of each side contributes once. -/
lemma bestMatch_windows :
    Model.bestMatch (fun _ _ => 3 / 5) [win9] [] win7 = some (0, 3 / 5) := by
  unfold Model.bestMatch
  simp [List.range_succ, win9, win7, Model.dDefault, area_unitSquare]

/-- Loop evaluation for the window-dedup example. -/
lemma reconcileLoop_windows :
    Model.reconcileLoop (fun _ _ => 3 / 5) (2 / 5) [win9] 0 [win7] [] []
      = ([0], [⟨win9, .both, some 0, some 0⟩]) := by
  rw [reconcileLoop_cons_merge (fun _ _ => 3 / 5) (2 / 5) [win9] 0 win7 [] [] [] 0 (3 / 5)
      win7_area bestMatch_windows (by norm_num)]
  rw [reconcileLoop_nil]
  norm_num [win9, win7, Model.dDefault]

/-- Full reconciliation of the window-dedup example: exactly one result, carrying the
higher confidence `0.9`, contributed by primary index `0` and secondary index `0`. -/
lemma reconcile_windows :
    Model.reconcile (fun _ _ => 3 / 5) (2 / 5) [win9] [win7]
      = [⟨win9, .both, some 0, some 0⟩] := by
  unfold Model.reconcile
  rw [reconcileLoop_windows]
  unfold Model.unclaimedPrimaries
  simp [List.range_succ]

end Bridge

/-- Claim C8: in every output of `reconcile`, each raw input detection — identified by
its position in the primary or secondary list — contributes to at most one
`ReconciledDetection` (no double counting); and two same-class detections whose IoU
meets the threshold (windows with IoU `0.6 ≥ 0.4`, confidences `0.9` and `0.7`) produce
exactly one `ReconciledDetection` carrying the higher confidence `0.9`. -/
theorem claim_C8_reconcile_no_double_count :
    (∀ (iou : List Src.Point → List Src.Point → ℚ) (thr : ℚ)
        (primary secondary : List Model.Det) (i : ℕ),
        (Model.reconcile iou thr primary secondary).countP
          (fun e => decide (e.fromPrimary = some i)) ≤ 1)
    ∧ (∀ (iou : List Src.Point → List Src.Point → ℚ) (thr : ℚ)
        (primary secondary : List Model.Det) (t : ℕ),
        (Model.reconcile iou thr primary secondary).countP
          (fun e => decide (e.fromSecondary = some t)) ≤ 1)
    ∧ Model.reconcile (fun _ _ => 3 / 5) (2 / 5) [Bridge.win9] [Bridge.win7]
        = [⟨Bridge.win9, .both, some 0, some 0⟩]
    ∧ Bridge.win9.conf = 9 / 10 := by
  have hinv0 : Bridge.OutInv [] 0 [] := ⟨by simp, by simp, by simp, by simp⟩
  refine ⟨?_, ?_, Bridge.reconcile_windows, rfl⟩
  · intro iou thr primary secondary i
    have hinv := Bridge.reconcileLoop_inv iou thr primary secondary 0 [] [] hinv0
    unfold Model.reconcile
    rw [List.countP_append]
    by_cases hi : i ∈ (Model.reconcileLoop iou thr primary 0 secondary [] []).1
    · rw [(Bridge.unclaimed_fp_countP primary _ i).2 hi]
      have := hinv.2.1 i
      omega
    · have hzero : (Model.reconcileLoop iou thr primary 0 secondary [] []).2.countP
          (fun e => decide (e.fromPrimary = some i)) = 0 := by
        rw [List.countP_eq_zero]
        intro e he
        simp only [decide_eq_true_eq]
        intro hc
        exact hi (hinv.1 e he i hc)
      rw [hzero]
      have := (Bridge.unclaimed_fp_countP primary
        (Model.reconcileLoop iou thr primary 0 secondary [] []).1 i).1
      omega
  · intro iou thr primary secondary t
    have hinv := Bridge.reconcileLoop_inv iou thr primary secondary 0 [] [] hinv0
    unfold Model.reconcile
    rw [List.countP_append, Bridge.unclaimed_fs_countP]
    have := hinv.2.2.1 t
    omega

/-- Witness for C7: the nonzero-area hypothesis is satisfiable — a single window
detection over the unit square passes through unchanged on both sides. -/
theorem claim_C7_reconcile_passthrough_witness :
    (Model.reconcile (fun _ _ => 0) (2 / 5) [Bridge.win9] []).map Model.RecDet.det
        = [Bridge.win9]
    ∧ (Model.reconcile (fun _ _ => 0) (2 / 5) [] [Bridge.win9]).map Model.RecDet.det
        = [Bridge.win9] :=
  ⟨(claim_C7_reconcile_passthrough.1 (fun _ _ => 0) (2 / 5) [Bridge.win9]
      (fun d hd => by rw [List.mem_singleton.mp hd]; exact Bridge.win9_area)).1,
    (claim_C7_reconcile_passthrough.2 (fun _ _ => 0) (2 / 5) [Bridge.win9]
      (fun d hd => by rw [List.mem_singleton.mp hd]; exact Bridge.win9_area)).1⟩
